import Mathlib

/-!
# Frame ingestion core of `h3` (`src/h3/src/frame/mod.rs`)

A shallow embedding of the frame-ingestion layer: the chunk-aggregation
buffer, the incremental frame decoder with its `expected` minimum-bytes
hint, the per-stream state machine (`FrameStream` with `poll_next` /
`poll_data`), and the error-to-protocol-code mapping.

Bytes are modelled as `Nat` (the values relevant to the varint layout are
below 256), the chunk buffer as a list of chunks (each a list of bytes),
and the non-blocking transport as a list of scheduled events consumed one
per poll.  A `poll_next` call that trips the `assert!` in the source is
modelled by returning `none`; the `u64` decrement of `remaining_data` in
`poll_data` wraps, written with an explicit `% 2 ^ 64`.
-/

/-- Cooperative-scheduling poll outcome: either a suspension
(`Poll::Pending`) or a ready value. -/
inductive Poll (α : Type) where
  | pending
  | ready (a : α)
deriving DecidableEq, Repr

/-! ## Varint and frame codec

The wire codec (`crate::proto::frame`) is not part of the source under
review; the definitions in this section are modelled from the spec. -/

/-- Modelled from the spec: the external frame codec's variable-length
integer layout (`crate::proto` is not included under `src/`).  The two
top bits of the first byte select an encoding width of 1, 2, 4 or 8
bytes, so the width is determined by the first byte alone. -/
def varintLen (b : Nat) : Nat := 2 ^ (b / 64)

/-- Modelled from the spec: big-endian assembly of the value bytes that
follow the width-carrying first byte of a varint. -/
def beBytes (l : List Nat) : Nat := l.foldl (fun a b => 256 * a + b) 0

/-- Modelled from the spec: decode one varint from the front of a byte
sequence.  Returns the value and the number of bytes consumed, or, when
the bytes present cannot determine the value, the minimum byte count
needed. -/
def decodeVarint : List Nat → Except Nat (Nat × Nat)
  | [] => .error 1
  | b :: rest =>
    let k := varintLen b
    if rest.length + 1 < k then .error k
    else .ok (b % 64 * 256 ^ (k - 1) + beBytes (rest.take (k - 1)), k)

/-- Modelled from the spec: encode a value (below `2 ^ 62`) in the
shortest varint form. -/
def encodeVarint (n : Nat) : List Nat :=
  if n < 64 then [n]
  else if n < 16384 then [64 + n / 256, n % 256]
  else if n < 2 ^ 30 then
    [128 + n / 2 ^ 24, n / 2 ^ 16 % 256, n / 2 ^ 8 % 256, n % 256]
  else
    [192 + n / 2 ^ 56 % 64, n / 2 ^ 48 % 256, n / 2 ^ 40 % 256,
      n / 2 ^ 32 % 256, n / 2 ^ 24 % 256, n / 2 ^ 16 % 256,
      n / 2 ^ 8 % 256, n % 256]

/-- Frames handed to the caller (`crate::proto::frame::Frame`, consumed
opaquely by the code under review).  `Data` is the length-announcing
variant: it carries only the declared payload length; the payload itself
is streamed separately. -/
inductive Frame where
  | Data (len : Nat)
  | Headers (block : List Nat)
  | Settings (payload : List Nat)
deriving DecidableEq, Repr

/-- The decode-failure taxonomy reported by the frame codec
(`crate::proto::frame::Error`), as consumed by `FrameDecoder::decode`
and `Error::code`. -/
inductive ProtoError where
  | Settings (reason : Nat)
  | UnsupportedFrame (ty : Nat)
  | UnknownFrame (ty : Nat)
  | Incomplete (min : Nat)
  | Malformed
deriving DecidableEq, Repr

/-- Wire type tags of the frame variants the modelled codec knows. -/
def Frame.ty : Frame → Nat
  | .Data _ => 0
  | .Headers _ => 1
  | .Settings _ => 4

/-- Modelled from the spec: the codec's encoder (`Frame::encode`).  A
frame is a type varint, a length varint, then the inline body — except
the length-announcing `Data` variant, whose payload is not written by
`encode` (it is streamed separately, as the tests in the source do with
`put_slice`). -/
def Frame.encode : Frame → List Nat
  | .Data len => encodeVarint 0 ++ encodeVarint len
  | .Headers block => encodeVarint 1 ++ encodeVarint block.length ++ block
  | .Settings payload =>
      encodeVarint 4 ++ encodeVarint payload.length ++ payload

/-- Encodable frames: lengths fit in a varint. -/
def Frame.wf : Frame → Prop
  | .Data len => len < 2 ^ 62
  | .Headers block => block.length < 2 ^ 62
  | .Settings payload => payload.length < 2 ^ 62

instance : DecidablePred Frame.wf := fun f => by
  cases f <;> simp only [Frame.wf] <;> infer_instance

/-- Modelled from the spec: the codec's decoder (`Frame::decode`) run on
a speculative cursor.  Returns the final cursor position together with
either a frame or a codec error: `Incomplete min` when the bytes present
cannot determine the frame (carrying the minimum byte count needed),
`UnknownFrame ty` after skipping a frame of unrecognized type.  For the
length-announcing `Data` type the cursor stops after the header: the
payload is not consumed. -/
def Frame.decode (l : List Nat) : Nat × Except ProtoError Frame :=
  match decodeVarint l with
  | .error need => (0, .error (.Incomplete need))
  | .ok (ty, k1) =>
    match decodeVarint (l.drop k1) with
    | .error need => (k1, .error (.Incomplete (k1 + need)))
    | .ok (len, k2) =>
      if ty = 0 then (k1 + k2, .ok (.Data len))
      else if (l.drop (k1 + k2)).length < len then
        (k1 + k2, .error (.Incomplete (k1 + k2 + len)))
      else if ty = 1 then
        (k1 + k2 + len, .ok (.Headers ((l.drop (k1 + k2)).take len)))
      else if ty = 4 then
        (k1 + k2 + len, .ok (.Settings ((l.drop (k1 + k2)).take len)))
      else (k1 + k2 + len, .error (.UnknownFrame ty))

/-- Bytes of a frame of unrecognized type `ty` carrying `payload`,
as they appear on the wire. -/
def encodeUnknown (ty : Nat) (payload : List Nat) : List Nat :=
  encodeVarint ty ++ encodeVarint payload.length ++ payload

/-! ### Varint lemmas -/

theorem decodeVarint_error_length {l : List Nat} {k : Nat}
    (h : decodeVarint l = .error k) : l.length < k := by
  match l with
  | [] =>
    simp only [decodeVarint, Except.error.injEq] at h
    simp only [List.length_nil]
    omega
  | b :: rest =>
    simp only [decodeVarint] at h
    split at h
    · simp only [Except.error.injEq] at h
      subst h
      simpa using ‹_›
    · exact absurd h (by simp)

theorem decodeVarint_error_append {l e : List Nat} {k : Nat}
    (h : decodeVarint l = .error k) (hlen : (l ++ e).length < k) :
    decodeVarint (l ++ e) = .error k := by
  match l with
  | [] =>
    simp only [decodeVarint, Except.error.injEq] at h
    subst h
    have he : e = [] := List.eq_nil_of_length_eq_zero (by simpa using hlen)
    subst he
    rfl
  | b :: rest =>
    simp only [decodeVarint] at h
    split at h
    · simp only [Except.error.injEq] at h
      subst h
      simp only [List.cons_append, List.length_cons, List.length_append] at hlen
      simp only [List.cons_append, decodeVarint]
      rw [if_pos (by simp only [List.length_append]; omega)]
    · exact absurd h (by simp)

theorem decodeVarint_ok_length {l : List Nat} {v k : Nat}
    (h : decodeVarint l = .ok (v, k)) : k ≤ l.length := by
  match l with
  | [] => exact absurd h (by simp [decodeVarint])
  | b :: rest =>
    simp only [decodeVarint] at h
    split at h
    · exact absurd h (by simp)
    · simp only [Except.ok.injEq, Prod.mk.injEq] at h
      simp only [List.length_cons]
      omega

theorem decodeVarint_ok_append {l e : List Nat} {v k : Nat}
    (h : decodeVarint l = .ok (v, k)) : decodeVarint (l ++ e) = .ok (v, k) := by
  match l with
  | [] => exact absurd h (by simp [decodeVarint])
  | b :: rest =>
    simp only [decodeVarint] at h
    split at h
    · exact absurd h (by simp)
    · rename_i hk
      simp only [Except.ok.injEq, Prod.mk.injEq] at h
      obtain ⟨hv, hkk⟩ := h
      subst hkk
      subst hv
      simp only [List.cons_append, decodeVarint]
      rw [if_neg (by simp only [List.length_append]; omega),
        List.take_append_of_le_length (by omega)]

theorem decodeVarint_encode (n : Nat) (hn : n < 2 ^ 62) (rest : List Nat) :
    decodeVarint (encodeVarint n ++ rest) = .ok (n, (encodeVarint n).length) := by
  by_cases h1 : n < 64
  · have hk : varintLen n = 1 := by
      unfold varintLen
      rw [Nat.div_eq_of_lt h1]
      rfl
    simp only [encodeVarint, if_pos h1, List.cons_append, List.nil_append,
      decodeVarint, hk, List.length_cons, List.length_nil]
    norm_num [beBytes]
    omega
  · by_cases h2 : n < 16384
    · have hk : varintLen (64 + n / 256) = 2 := by
        unfold varintLen
        have h : (64 + n / 256) / 64 = 1 := by omega
        rw [h]
        rfl
      simp only [encodeVarint, if_neg h1, if_pos h2, List.cons_append,
        List.nil_append, decodeVarint, hk, List.length_cons, List.length_nil]
      norm_num [beBytes, List.take_succ_cons]
      rw [if_neg (by omega)]
      simp only [Except.ok.injEq, Prod.mk.injEq]
      exact ⟨by omega, trivial⟩
    · by_cases h3 : n < 2 ^ 30
      · have hk : varintLen (128 + n / 2 ^ 24) = 4 := by
          unfold varintLen
          have h : (128 + n / 2 ^ 24) / 64 = 2 := by omega
          rw [h]
          rfl
        simp only [encodeVarint, if_neg h1, if_neg h2, if_pos h3,
          List.cons_append, List.nil_append, decodeVarint, hk,
          List.length_cons, List.length_nil]
        norm_num [beBytes, List.take_succ_cons]
        rw [if_neg (by omega)]
        simp only [Except.ok.injEq, Prod.mk.injEq]
        exact ⟨by omega, trivial⟩
      · have hk : varintLen (192 + n / 2 ^ 56 % 64) = 8 := by
          unfold varintLen
          have h : (192 + n / 2 ^ 56 % 64) / 64 = 3 := by omega
          rw [h]
          rfl
        simp only [encodeVarint, if_neg h1, if_neg h2, if_neg h3,
          List.cons_append, List.nil_append, decodeVarint, hk,
          List.length_cons, List.length_nil]
        norm_num [beBytes, List.take_succ_cons]
        rw [if_neg (by omega)]
        simp only [Except.ok.injEq, Prod.mk.injEq]
        exact ⟨by omega, trivial⟩

/-! ### Frame codec lemmas -/

theorem encodeVarint_ne_nil (n : Nat) : encodeVarint n ≠ [] := by
  unfold encodeVarint
  split_ifs <;> simp

theorem encodeVarint_length_pos (n : Nat) : 0 < (encodeVarint n).length :=
  List.length_pos.mpr (encodeVarint_ne_nil n)

theorem decodeVarint_dropLast_encode (n : Nat) :
    decodeVarint (encodeVarint n).dropLast = .error (encodeVarint n).length := by
  by_cases h1 : n < 64
  · simp [encodeVarint, if_pos h1, decodeVarint]
  · by_cases h2 : n < 16384
    · have hk : varintLen (64 + n / 256) = 2 := by
        unfold varintLen
        have h : (64 + n / 256) / 64 = 1 := by omega
        rw [h]
        rfl
      simp [encodeVarint, if_neg h1, if_pos h2, decodeVarint, hk]
    · by_cases h3 : n < 2 ^ 30
      · have hk : varintLen (128 + n / 16777216) = 4 := by
          unfold varintLen
          have h : (128 + n / 16777216) / 64 = 2 := by omega
          rw [h]
          rfl
        have h3n : n < 1073741824 := by omega
        simp [encodeVarint, h1, h2, h3n, decodeVarint, hk]
      · have hk : varintLen (192 + n / 72057594037927936 % 64) = 8 := by
          unfold varintLen
          have h : (192 + n / 72057594037927936 % 64) / 64 = 3 := by omega
          rw [h]
          rfl
        have h3n : ¬ n < 1073741824 := by omega
        simp [encodeVarint, h1, h2, h3n, decodeVarint, hk]

theorem decode_frame_header (ty len : Nat) (hty : ty < 2 ^ 62)
    (hlen : len < 2 ^ 62) (tail : List Nat) :
    Frame.decode (encodeVarint ty ++ encodeVarint len ++ tail) =
      (if ty = 0 then
        ((encodeVarint ty).length + (encodeVarint len).length, .ok (.Data len))
      else if tail.length < len then
        ((encodeVarint ty).length + (encodeVarint len).length,
          .error (.Incomplete
            ((encodeVarint ty).length + (encodeVarint len).length + len)))
      else if ty = 1 then
        ((encodeVarint ty).length + (encodeVarint len).length + len,
          .ok (.Headers (tail.take len)))
      else if ty = 4 then
        ((encodeVarint ty).length + (encodeVarint len).length + len,
          .ok (.Settings (tail.take len)))
      else
        ((encodeVarint ty).length + (encodeVarint len).length + len,
          .error (.UnknownFrame ty))) := by
  have hdrop1 : (encodeVarint ty ++ (encodeVarint len ++ tail)).drop
      (encodeVarint ty).length = encodeVarint len ++ tail := List.drop_left _ _
  have hdrop2 : (encodeVarint ty ++ (encodeVarint len ++ tail)).drop
      ((encodeVarint ty).length + (encodeVarint len).length) = tail := by
    rw [← List.append_assoc,
      show (encodeVarint ty).length + (encodeVarint len).length
        = (encodeVarint ty ++ encodeVarint len).length by simp,
      List.drop_left]
  unfold Frame.decode
  rw [List.append_assoc, decodeVarint_encode ty hty]
  dsimp only
  rw [hdrop1, decodeVarint_encode len hlen]
  dsimp only
  rw [hdrop2]

theorem Frame.decode_encode (f : Frame) (hf : f.wf) (rest : List Nat) :
    Frame.decode (f.encode ++ rest) = (f.encode.length, .ok f) := by
  cases f with
  | Data len =>
    simp only [Frame.wf] at hf
    simp only [Frame.encode, List.append_assoc]
    rw [← List.append_assoc, decode_frame_header 0 len (by norm_num) hf rest,
      if_pos rfl]
    simp
  | Headers block =>
    simp only [Frame.wf] at hf
    simp only [Frame.encode, List.append_assoc]
    rw [← List.append_assoc,
      decode_frame_header 1 block.length (by norm_num) hf (block ++ rest),
      if_neg (by norm_num), if_neg (by simp), if_pos rfl,
      List.take_append_of_le_length le_rfl, List.take_length]
    simp [Nat.add_assoc]
  | Settings payload =>
    simp only [Frame.wf] at hf
    simp only [Frame.encode, List.append_assoc]
    rw [← List.append_assoc,
      decode_frame_header 4 payload.length (by norm_num) hf (payload ++ rest),
      if_neg (by norm_num), if_neg (by simp), if_neg (by norm_num), if_pos rfl,
      List.take_append_of_le_length le_rfl, List.take_length]
    simp [Nat.add_assoc]

theorem Frame.decode_encodeUnknown (ty : Nat) (payload : List Nat)
    (hty : ty < 2 ^ 62) (hp : payload.length < 2 ^ 62)
    (h0 : ty ≠ 0) (h1 : ty ≠ 1) (h4 : ty ≠ 4) (rest : List Nat) :
    Frame.decode (encodeUnknown ty payload ++ rest) =
      ((encodeUnknown ty payload).length, .error (.UnknownFrame ty)) := by
  simp only [encodeUnknown, List.append_assoc]
  rw [← List.append_assoc,
    decode_frame_header ty payload.length hty hp (payload ++ rest),
    if_neg h0, if_neg (by simp), if_neg h1, if_neg h4]
  simp [Nat.add_assoc]

theorem Frame.decode_incomplete_length {l : List Nat} {p m : Nat}
    (h : Frame.decode l = (p, .error (.Incomplete m))) : l.length < m := by
  unfold Frame.decode at h
  split at h
  · rename_i need heq
    simp only [Prod.mk.injEq, Except.error.injEq, ProtoError.Incomplete.injEq] at h
    obtain ⟨-, hm⟩ := h
    subst hm
    exact decodeVarint_error_length heq
  · rename_i ty k1 heq1
    split at h
    · rename_i need heq2
      simp only [Prod.mk.injEq, Except.error.injEq,
        ProtoError.Incomplete.injEq] at h
      obtain ⟨-, hm⟩ := h
      subst hm
      have hk1 := decodeVarint_ok_length heq1
      have hneed := decodeVarint_error_length heq2
      simp only [List.length_drop] at hneed
      omega
    · rename_i len k2 heq2
      split at h
      · simp at h
      · split at h
        · rename_i hshort
          simp only [Prod.mk.injEq, Except.error.injEq,
            ProtoError.Incomplete.injEq] at h
          obtain ⟨-, hm⟩ := h
          subst hm
          have hk1 := decodeVarint_ok_length heq1
          have hk2 := decodeVarint_ok_length heq2
          simp only [List.length_drop] at hshort hk2
          omega
        · split at h
          · simp at h
          · split at h
            · simp at h
            · simp at h

theorem Frame.decode_incomplete_append {l e : List Nat} {p m : Nat}
    (h : Frame.decode l = (p, .error (.Incomplete m)))
    (hlen : (l ++ e).length < m) :
    (Frame.decode (l ++ e)).2 = .error (.Incomplete m) := by
  simp only [List.length_append] at hlen
  unfold Frame.decode at h ⊢
  split at h
  · rename_i need heq
    simp only [Prod.mk.injEq, Except.error.injEq, ProtoError.Incomplete.injEq] at h
    obtain ⟨-, hm⟩ := h
    subst hm
    rw [decodeVarint_error_append heq (by simp only [List.length_append]; omega)]
  · rename_i ty k1 heq1
    have hk1 := decodeVarint_ok_length heq1
    split at h
    · rename_i need heq2
      simp only [Prod.mk.injEq, Except.error.injEq,
        ProtoError.Incomplete.injEq] at h
      obtain ⟨-, hm⟩ := h
      subst hm
      have hneed := decodeVarint_error_length heq2
      simp only [List.length_drop] at hneed
      have hcond : (l.drop k1 ++ e).length < need := by
        simp only [List.length_append, List.length_drop]
        omega
      rw [decodeVarint_ok_append heq1]
      dsimp only
      rw [List.drop_append_of_le_length hk1, decodeVarint_error_append heq2 hcond]
    · rename_i len k2 heq2
      have hk2 := decodeVarint_ok_length heq2
      simp only [List.length_drop] at hk2
      split at h
      · simp at h
      · split at h
        · rename_i hty0 hshort
          simp only [Prod.mk.injEq, Except.error.injEq,
            ProtoError.Incomplete.injEq] at h
          obtain ⟨-, hm⟩ := h
          subst hm
          simp only [List.length_drop] at hshort
          have hc1 : k1 + k2 ≤ l.length := by omega
          have hc2 : (l.drop (k1 + k2) ++ e).length < len := by
            simp only [List.length_append, List.length_drop]
            omega
          rw [decodeVarint_ok_append heq1]
          dsimp only
          rw [List.drop_append_of_le_length hk1, decodeVarint_ok_append heq2]
          dsimp only
          rw [if_neg hty0, List.drop_append_of_le_length hc1, if_pos hc2]
        · split at h
          · simp at h
          · split at h
            · simp at h
            · simp at h

theorem Frame.encode_length_two (f : Frame) : 2 ≤ f.encode.length := by
  cases f with
  | Data len =>
    have h1 := encodeVarint_length_pos 0
    have h2 := encodeVarint_length_pos len
    simp only [Frame.encode, List.length_append]
    omega
  | Headers block =>
    have h1 := encodeVarint_length_pos 1
    have h2 := encodeVarint_length_pos block.length
    simp only [Frame.encode, List.length_append]
    omega
  | Settings payload =>
    have h1 := encodeVarint_length_pos 4
    have h2 := encodeVarint_length_pos payload.length
    simp only [Frame.encode, List.length_append]
    omega

theorem Frame.decode_dropLast_encode (f : Frame) (hf : f.wf) :
    (Frame.decode f.encode.dropLast).2 =
      .error (.Incomplete f.encode.length) := by
  cases f with
  | Data len =>
    simp only [Frame.wf] at hf
    simp only [Frame.encode]
    rw [List.dropLast_append_of_ne_nil _ (encodeVarint_ne_nil len)]
    unfold Frame.decode
    rw [decodeVarint_encode 0 (by norm_num)]
    dsimp only
    rw [List.drop_left, decodeVarint_dropLast_encode len]
    simp
  | Headers block =>
    simp only [Frame.wf] at hf
    by_cases hb : block = []
    · subst hb
      simp only [Frame.encode, List.length_nil, List.append_nil]
      rw [List.dropLast_append_of_ne_nil _ (encodeVarint_ne_nil 0)]
      unfold Frame.decode
      rw [decodeVarint_encode 1 (by norm_num)]
      dsimp only
      rw [List.drop_left, decodeVarint_dropLast_encode 0]
      simp
    · rw [show Frame.encode (.Headers block)
          = (encodeVarint 1 ++ encodeVarint block.length) ++ block by
        simp [Frame.encode]]
      rw [List.dropLast_append_of_ne_nil _ hb,
        decode_frame_header 1 block.length (by norm_num) hf block.dropLast,
        if_neg one_ne_zero,
        if_pos (by
          rw [List.length_dropLast]
          have := List.length_pos.mpr hb
          omega)]
      simp [Nat.add_assoc]
  | Settings payload =>
    simp only [Frame.wf] at hf
    by_cases hb : payload = []
    · subst hb
      simp only [Frame.encode, List.length_nil, List.append_nil]
      rw [List.dropLast_append_of_ne_nil _ (encodeVarint_ne_nil 0)]
      unfold Frame.decode
      rw [decodeVarint_encode 4 (by norm_num)]
      dsimp only
      rw [List.drop_left, decodeVarint_dropLast_encode 0]
      simp
    · rw [show Frame.encode (.Settings payload)
          = (encodeVarint 4 ++ encodeVarint payload.length) ++ payload by
        simp [Frame.encode]]
      rw [List.dropLast_append_of_ne_nil _ hb,
        decode_frame_header 4 payload.length (by norm_num) hf payload.dropLast,
        if_neg (by norm_num),
        if_pos (by
          rw [List.length_dropLast]
          have := List.length_pos.mpr hb
          omega)]
      simp [Nat.add_assoc]

/-! ## Chunk buffer, decoder state, errors

`BufList` lives in `src/h3/src/frame/buf.rs`, which is not included
under `src/`; it is modelled from the spec.  Everything below it embeds
`src/h3/src/frame/mod.rs` directly. -/

/-- Modelled from the spec: the ChunkBuffer (`BufList`), an ordered
sequence of received chunks presented as one logical sequentially
consumable byte sequence.  Chunk boundaries are kept: the source's
`Buf::bytes()` exposes only the front contiguous chunk, which is what
`poll_data`'s extraction loop reads.  A chunk is dropped once fully
consumed; a zero-length chunk is fully consumed on arrival, so `push`
discards it. -/
structure BufList where
  chunks : List (List Nat)
deriving DecidableEq, Repr

/-- The logical byte sequence the buffer holds: what a speculative
cursor walking across all chunk boundaries reads. -/
def BufList.bytes (b : BufList) : List Nat := b.chunks.flatten

/-- Append a received chunk (`BufList::push`); an empty chunk is
already fully consumed and is discarded. -/
def BufList.push (b : BufList) (c : List Nat) : BufList :=
  if c = [] then b else ⟨b.chunks ++ [c]⟩

/-- Total unconsumed byte count (`BufList::remaining`, the sum over all
chunks). -/
def BufList.remaining (b : BufList) : Nat := b.bytes.length

/-- The front contiguous chunk (`Buf::bytes()` on the `BufList`): the
longest unconsumed slice that does not cross a chunk boundary. -/
def BufList.chunk (b : BufList) : List Nat :=
  match b.chunks with
  | [] => []
  | c :: _ => c

/-- Consume `n` bytes from the front of the chunk sequence, discarding
every fully consumed chunk. -/
def chunksAdvance : List (List Nat) → Nat → List (List Nat)
  | [], _ => []
  | c :: cs, n =>
    if c.length ≤ n then chunksAdvance cs (n - c.length)
    else c.drop n :: cs

/-- Consume `n` bytes from the front, crossing chunk boundaries
(`BufList::advance`). -/
def BufList.advance (b : BufList) (n : Nat) : BufList :=
  ⟨chunksAdvance b.chunks n⟩

theorem chunksAdvance_flatten (cs : List (List Nat)) (n : Nat) :
    (chunksAdvance cs n).flatten = cs.flatten.drop n := by
  induction cs generalizing n with
  | nil => simp [chunksAdvance]
  | cons c cs ih =>
    unfold chunksAdvance
    split
    · rename_i hle
      rw [ih, List.flatten_cons,
        show n = c.length + (n - c.length) from by omega,
        List.drop_append]
      congr 1
      omega
    · rename_i hgt
      rw [List.flatten_cons, List.flatten_cons,
        List.drop_append_of_le_length (by omega)]

theorem BufList.advance_bytes (b : BufList) (n : Nat) :
    (b.advance n).bytes = b.bytes.drop n :=
  chunksAdvance_flatten b.chunks n

theorem BufList.push_bytes (b : BufList) (c : List Nat) :
    (b.push c).bytes = b.bytes ++ c := by
  unfold BufList.push
  split
  · rename_i hc
    subst hc
    simp
  · simp [BufList.bytes]

theorem BufList.push_remaining (b : BufList) (c : List Nat) :
    (b.push c).remaining = b.remaining + c.length := by
  simp [BufList.remaining, BufList.push_bytes]

/-- The decoder state (`FrameDecoder`): the optional `expected` lower
bound on bytes required for the next successful decode attempt. -/
structure FrameDecoder where
  expected : Option Nat
deriving DecidableEq, Repr

/-- Constructor `FrameDecoder::default()`: no hint recorded. -/
def FrameDecoder.default : FrameDecoder := ⟨none⟩

/-- The error type of the frame stream (`Error` in
`src/h3/src/frame/mod.rs`): a protocol decode error, a transport
(`Quic`) error (payload opaque), or `UnexpectedEnd`. -/
inductive Error where
  | Proto (e : ProtoError)
  | Quic (msg : Nat)
  | UnexpectedEnd
deriving DecidableEq, Repr

/-- Modelled from the spec: protocol-level error codes
(`crate::proto::ErrorCode`, not included under `src/`); the numeric
values are the HTTP/3 wire codes. -/
structure ErrorCode where
  code : Nat
deriving DecidableEq, Repr

/-- Modelled from the spec: the general protocol error code. -/
def ErrorCode.GENERAL_PROTOCOL_ERROR : ErrorCode := ⟨0x101⟩

/-- Modelled from the spec: the frame-unexpected error code. -/
def ErrorCode.FRAME_UNEXPECTED : ErrorCode := ⟨0x105⟩

/-- Modelled from the spec: the frame error code. -/
def ErrorCode.FRAME_ERROR : ErrorCode := ⟨0x106⟩

/-- Modelled from the spec: the settings error code. -/
def ErrorCode.SETTINGS_ERROR : ErrorCode := ⟨0x109⟩

/-- Mapping `Error::code`: the error-to-protocol-code mapping (lines 224–234 of
`src/h3/src/frame/mod.rs`), with the match arms in source order. -/
def Error.code : Error → ErrorCode
  | .Quic _ => ErrorCode.GENERAL_PROTOCOL_ERROR
  | .Proto (ProtoError.Settings _) => ErrorCode.SETTINGS_ERROR
  | .Proto (ProtoError.UnsupportedFrame _) => ErrorCode.FRAME_UNEXPECTED
  | .Proto _ => ErrorCode.FRAME_ERROR
  | .UnexpectedEnd => ErrorCode.GENERAL_PROTOCOL_ERROR

/-- Body of `FrameDecoder::decode`, the speculative parse attempt after the
early returns: run `Frame::decode` on a cursor, then either commit
(`advance`) and clear the hint (success or unknown-frame skip), record
the reported minimum (`Incomplete`), or propagate the error with no
commit. -/
def FrameDecoder.decodeAttempt (dec : FrameDecoder) (src : BufList) :
    FrameDecoder × BufList × Except Error (Option Frame) :=
  match Frame.decode src.bytes with
  | (pos, .error (ProtoError.UnknownFrame _)) =>
      (⟨none⟩, src.advance pos, .ok none)
  | (_, .error (ProtoError.Incomplete m)) => (⟨some m⟩, src, .ok none)
  | (_, .error e) => (dec, src, .error (Error.Proto e))
  | (pos, .ok f) => (⟨none⟩, src.advance pos, .ok (some f))

/-- Operation `FrameDecoder::decode` (lines 183–214): return `none` on an empty
buffer; if the `expected` hint is set and the buffer holds fewer bytes,
return `none` without attempting a parse; otherwise attempt a parse. -/
def FrameDecoder.decode (dec : FrameDecoder) (src : BufList) :
    FrameDecoder × BufList × Except Error (Option Frame) :=
  if src.remaining = 0 then (dec, src, .ok none)
  else
    match dec.expected with
    | some m =>
        if src.remaining < m then (dec, src, .ok none)
        else FrameDecoder.decodeAttempt dec src
    | none => FrameDecoder.decodeAttempt dec src

/-! ## The frame stream -/

/-- One scheduled outcome of polling the receive-side transport
(`RecvStream::poll_data`): a chunk of bytes, a not-ready-yet signal, or
a transport error.  A stream whose schedule is exhausted reports clean
end-of-stream on every further poll. -/
inductive RecvEvent where
  | chunk (data : List Nat)
  | pending
  | err (msg : Nat)
deriving DecidableEq, Repr

/-- The per-stream ingestion state (`FrameStream`): the receive
transport (as its remaining scheduled events), the chunk buffer, the
decoder, and the undrained payload counter `remaining_data`. -/
structure FrameStream where
  stream : List RecvEvent
  bufs : BufList
  decoder : FrameDecoder
  remaining_data : Nat
deriving DecidableEq, Repr

/-- Constructor `FrameStream::new`: empty buffer, default decoder, no pending
payload. -/
def FrameStream.new (events : List RecvEvent) : FrameStream :=
  ⟨events, ⟨[]⟩, FrameDecoder.default, 0⟩

/-- Operation `FrameStream::try_recv` (lines 109–119): poll the transport once;
push a received chunk into the buffer and report `false`, report `true`
on clean end-of-stream, propagate pending and transport errors. -/
def FrameStream.try_recv (s : FrameStream) :
    FrameStream × Poll (Except Error Bool) :=
  match s.stream with
  | [] => (s, .ready (.ok true))
  | RecvEvent.chunk d :: rest =>
      ({ s with stream := rest, bufs := s.bufs.push d }, .ready (.ok false))
  | RecvEvent.pending :: rest => ({ s with stream := rest }, .pending)
  | RecvEvent.err m :: rest =>
      ({ s with stream := rest }, .ready (.error (Error.Quic m)))

/-- The body of `FrameStream::poll_next`'s `loop` (lines 47–71), fused
with `try_recv`'s dispatch on the next transport event: each iteration
polls the transport once (returning early on a transport error, as the
`?` does), runs the decoder, yields a frame or a decode error, and
otherwise acts on the end-of-stream flag: received-a-chunk means loop
again, pending suspends, and clean end yields `UnexpectedEnd` when
unconsumed bytes remain in the buffer and graceful end otherwise. -/
def pollNextLoop : List RecvEvent → BufList → FrameDecoder →
    List RecvEvent × BufList × FrameDecoder ×
      Poll (Except Error (Option Frame))
  | [], bufs, dec =>
    match FrameDecoder.decode dec bufs with
    | (d', b', .error e) => ([], b', d', .ready (.error e))
    | (d', b', .ok (some f)) => ([], b', d', .ready (.ok (some f)))
    | (d', b', .ok none) =>
      if b'.remaining ≠ 0 then ([], b', d', .ready (.error Error.UnexpectedEnd))
      else ([], b', d', .ready (.ok none))
  | RecvEvent.pending :: rest, bufs, dec =>
    match FrameDecoder.decode dec bufs with
    | (d', b', .error e) => (rest, b', d', .ready (.error e))
    | (d', b', .ok (some f)) => (rest, b', d', .ready (.ok (some f)))
    | (d', b', .ok none) => (rest, b', d', .pending)
  | RecvEvent.err m :: rest, bufs, dec =>
      (rest, bufs, dec, .ready (.error (Error.Quic m)))
  | RecvEvent.chunk c :: rest, bufs, dec =>
    match FrameDecoder.decode dec (bufs.push c) with
    | (d', b', .error e) => (rest, b', d', .ready (.error e))
    | (d', b', .ok (some f)) => (rest, b', d', .ready (.ok (some f)))
    | (d', b', .ok none) => pollNextLoop rest b' d'

/-- Operation `FrameStream::poll_next` (lines 41–72).  The result is `none` when
the entry assertion (`remaining_data == 0`) fails — the modelled panic —
and otherwise carries the updated stream state and the poll outcome.
Yielding a `Data` frame sets `remaining_data` to its declared length
(line 52); nothing else writes the field. -/
def FrameStream.poll_next (s : FrameStream) :
    Option (FrameStream × Poll (Except Error (Option Frame))) :=
  if s.remaining_data ≠ 0 then none
  else
    match pollNextLoop s.stream s.bufs s.decoder with
    | (ev', b', d', res) =>
      let rd : Nat :=
        match res with
        | .ready (.ok (some (Frame.Data len))) => len
        | _ => s.remaining_data
      some (⟨ev', b', d', rd⟩, res)

/-- The extraction loop of `FrameStream::poll_data` (lines 86–91):
`while data.len() < read_size` take
`chunk_len = min(read_size, chunk.remaining())` bytes from the front
contiguous chunk (`bufs.bytes()`) and `advance` past them.  Note the
source computes `chunk_len` from `read_size`, not from
`read_size - data.len()`, so an iteration after the first can push
`data` past `read_size`.  Arguments: the chunk sequence and the bytes
accumulated so far; result: the accumulated bytes and the remaining
chunks.  When `read_size ≤ chunk.length` the iteration is the last one
(afterwards `data.len() ≥ read_size`); otherwise the chunk is consumed
whole and the loop continues.  (The `[]` case with
`data.length < read_size` is unreachable from `poll_data`, where
`read_size` never exceeds the bytes buffered.) -/
def extractLoop (read_size : Nat) :
    List (List Nat) → List Nat → List Nat × List (List Nat)
  | [], data => (data, [])
  | c :: cs, data =>
    if data.length < read_size then
      if read_size ≤ c.length then
        (data ++ c.take read_size, chunksAdvance (c :: cs) read_size)
      else extractLoop read_size cs (data ++ c)
    else (data, c :: cs)

/-- Operation `FrameStream::poll_data` (lines 74–103): return "no more payload"
when `remaining_data` is zero; otherwise poll the transport once
(suspending or failing as it does), run the per-chunk extraction loop
for `read_size = min(remaining_data, bufs.remaining())`, and dispatch
on (extracted count, end-of-stream flag) exactly as the source `match`
does.  The `remaining_data -= data.len()` at line 99 is `u64`
arithmetic; the model takes the release-build (wrapping) semantics,
written with an explicit `% 2 ^ 64`. -/
def FrameStream.poll_data (s : FrameStream) :
    FrameStream × Poll (Except Error (Option (List Nat))) :=
  if s.remaining_data = 0 then (s, .ready (.ok none))
  else
    match FrameStream.try_recv s with
    | (s1, .pending) => (s1, .pending)
    | (s1, .ready (.error e)) => (s1, .ready (.error e))
    | (s1, .ready (.ok end_)) =>
      let read_size := min s1.remaining_data s1.bufs.remaining
      let r := extractLoop read_size s1.bufs.chunks []
      let data := r.1
      let s2 : FrameStream := { s1 with bufs := ⟨r.2⟩ }
      if data.length = 0 then
        if end_ then (s2, .ready (.ok none)) else (s2, .pending)
      else if end_ ∧ data.length < s1.remaining_data then
        (s2, .ready (.error Error.UnexpectedEnd))
      else
        ({ s2 with remaining_data :=
            (s1.remaining_data + 2 ^ 64 - data.length % 2 ^ 64) % 2 ^ 64 },
          .ready (.ok (some data)))

/-! ## The hint-free decoder and hint soundness (for the refinement
claim) -/

/-- The decoder the spec's words describe for the hint claim: a decoder
that never sets (nor consults) the `expected` hint, but is otherwise
`FrameDecoder::decode` verbatim.  Its observable effect is the updated
buffer and the decode result. -/
def decodeNoHint (src : BufList) : BufList × Except Error (Option Frame) :=
  if src.remaining = 0 then (src, .ok none)
  else
    match Frame.decode src.bytes with
    | (pos, .error (ProtoError.UnknownFrame _)) => (src.advance pos, .ok none)
    | (_, .error (ProtoError.Incomplete _)) => (src, .ok none)
    | (_, .error e) => (src, .error (Error.Proto e))
    | (pos, .ok f) => (src.advance pos, .ok (some f))

/-- Soundness of the recorded hint with respect to the buffer: whenever
the hint is `some m` and the buffer holds fewer than `m` bytes, a parse
attempt on the buffer would report exactly `Incomplete m`. -/
def HintSound (dec : FrameDecoder) (src : BufList) : Prop :=
  ∀ m, dec.expected = some m → src.remaining < m →
    (Frame.decode src.bytes).2 = .error (.Incomplete m)

/-! ## Helper lemmas about the stream operations -/

theorem FrameStream.poll_next_remaining {s s' : FrameStream}
    {p : Poll (Except Error (Option Frame))}
    (h : FrameStream.poll_next s = some (s', p)) :
    s.remaining_data = 0 ∧
      s'.remaining_data =
        (match p with
          | .ready (.ok (some (Frame.Data len))) => len
          | _ => 0) := by
  unfold FrameStream.poll_next at h
  split at h
  · exact absurd h (by simp)
  · rename_i hz
    simp only [ne_eq, Decidable.not_not] at hz
    refine ⟨hz, ?_⟩
    rcases heq : pollNextLoop s.stream s.bufs s.decoder with ⟨ev', b', d', res⟩
    rw [heq] at h
    simp only [Option.some.injEq, Prod.mk.injEq] at h
    obtain ⟨hs', hp⟩ := h
    subst hp
    subst hs'
    cases res with
    | pending => simp [hz]
    | ready r =>
      cases r with
      | error e => simp [hz]
      | ok o =>
        cases o with
        | none => simp [hz]
        | some f => cases f <;> simp [hz]

/-! ## Decoder-level helper lemmas -/

theorem FrameDecoder.decode_hint_miss {dec : FrameDecoder} {src : BufList}
    {m : Nat} (he : dec.expected = some m) (h0 : src.remaining ≠ 0)
    (hlt : src.remaining < m) :
    FrameDecoder.decode dec src = (dec, src, .ok none) := by
  unfold FrameDecoder.decode
  rw [if_neg h0, he]
  dsimp only
  rw [if_pos hlt]

theorem FrameDecoder.decode_attempt_of_pass {dec : FrameDecoder}
    {src : BufList} (h0 : src.remaining ≠ 0)
    (hp : ∀ m, dec.expected = some m → m ≤ src.remaining) :
    FrameDecoder.decode dec src = FrameDecoder.decodeAttempt dec src := by
  unfold FrameDecoder.decode
  rw [if_neg h0]
  cases hd : dec.expected with
  | none => rfl
  | some m =>
    dsimp only
    rw [if_neg (by have := hp m hd; omega)]

theorem FrameDecoder.decode_incomplete {dec : FrameDecoder} {src : BufList}
    {p m : Nat} (h0 : src.remaining ≠ 0)
    (hp : ∀ k, dec.expected = some k → k ≤ src.remaining)
    (hd : Frame.decode src.bytes = (p, .error (.Incomplete m))) :
    FrameDecoder.decode dec src = (⟨some m⟩, src, .ok none) := by
  rw [FrameDecoder.decode_attempt_of_pass h0 hp]
  unfold FrameDecoder.decodeAttempt
  rw [hd]

theorem FrameDecoder.decode_unknown {dec : FrameDecoder} {src : BufList}
    {p ty : Nat} (h0 : src.remaining ≠ 0)
    (hp : ∀ k, dec.expected = some k → k ≤ src.remaining)
    (hd : Frame.decode src.bytes = (p, .error (.UnknownFrame ty))) :
    FrameDecoder.decode dec src = (⟨none⟩, src.advance p, .ok none) := by
  rw [FrameDecoder.decode_attempt_of_pass h0 hp]
  unfold FrameDecoder.decodeAttempt
  rw [hd]

theorem FrameDecoder.decode_frame {dec : FrameDecoder} {src : BufList}
    {p : Nat} {f : Frame} (h0 : src.remaining ≠ 0)
    (hp : ∀ k, dec.expected = some k → k ≤ src.remaining)
    (hd : Frame.decode src.bytes = (p, .ok f)) :
    FrameDecoder.decode dec src = (⟨none⟩, src.advance p, .ok (some f)) := by
  rw [FrameDecoder.decode_attempt_of_pass h0 hp]
  unfold FrameDecoder.decodeAttempt
  rw [hd]

theorem Frame.decode_encode_nil (f : Frame) (hf : f.wf) :
    Frame.decode f.encode = (f.encode.length, .ok f) := by
  have h := Frame.decode_encode f hf []
  rwa [List.append_nil] at h

theorem Frame.decode_encodeUnknown_nil (ty : Nat) (payload : List Nat)
    (hty : ty < 2 ^ 62) (hp : payload.length < 2 ^ 62)
    (h0 : ty ≠ 0) (h1 : ty ≠ 1) (h4 : ty ≠ 4) :
    Frame.decode (encodeUnknown ty payload) =
      ((encodeUnknown ty payload).length, .error (.UnknownFrame ty)) := by
  have h := Frame.decode_encodeUnknown ty payload hty hp h0 h1 h4 []
  rwa [List.append_nil] at h

theorem encodeUnknown_length_pos (ty : Nat) (payload : List Nat) :
    (encodeUnknown ty payload).length ≠ 0 := by
  have h1 := encodeVarint_length_pos ty
  simp only [encodeUnknown, List.length_append]
  omega

theorem Frame.encode_ne_nil (f : Frame) : f.encode ≠ [] := by
  intro h
  have h2 := Frame.encode_length_two f
  rw [h] at h2
  simp at h2

theorem encodeUnknown_ne_nil (ty : Nat) (payload : List Nat) :
    encodeUnknown ty payload ≠ [] := by
  intro h
  have h2 := encodeUnknown_length_pos ty payload
  rw [h] at h2
  exact h2 rfl

theorem BufList.push_empty (c : List Nat) (h : c ≠ []) :
    BufList.push ⟨[]⟩ c = ⟨[c]⟩ := by
  unfold BufList.push
  rw [if_neg h]
  rfl

theorem BufList.bytes_single (c : List Nat) :
    (⟨[c]⟩ : BufList).bytes = c := by
  simp [BufList.bytes]

theorem BufList.remaining_single (c : List Nat) :
    (⟨[c]⟩ : BufList).remaining = c.length := by
  simp [BufList.remaining, BufList.bytes]

theorem BufList.advance_single (c : List Nat) :
    (⟨[c]⟩ : BufList).advance c.length = ⟨[]⟩ := by
  simp [BufList.advance, chunksAdvance]

theorem poll_next_truncated_frame (f : Frame) (hf : f.wf) :
    FrameStream.poll_next
        (FrameStream.new [RecvEvent.chunk f.encode.dropLast]) =
      some (⟨[], ⟨[f.encode.dropLast]⟩, ⟨some f.encode.length⟩, 0⟩,
        .ready (.error Error.UnexpectedEnd)) := by
  have hlen2 := Frame.encode_length_two f
  have htr := Frame.decode_dropLast_encode f hf
  have hlt : f.encode.dropLast.length < f.encode.length := by
    rw [List.length_dropLast]
    omega
  have hne : f.encode.dropLast.length ≠ 0 := by
    rw [List.length_dropLast]
    omega
  have hnil : f.encode.dropLast ≠ [] := by
    intro h
    rw [h] at hne
    exact hne rfl
  have hbuf : BufList.push ⟨[]⟩ f.encode.dropLast =
      ⟨[f.encode.dropLast]⟩ := BufList.push_empty _ hnil
  have hbytes : (⟨[f.encode.dropLast]⟩ : BufList).bytes
      = f.encode.dropLast := by
    simp [BufList.bytes]
  have hrem : (⟨[f.encode.dropLast]⟩ : BufList).remaining
      = f.encode.dropLast.length := by
    simp [BufList.remaining, hbytes]
  have hfull : Frame.decode (⟨[f.encode.dropLast]⟩ : BufList).bytes =
      ((Frame.decode (⟨[f.encode.dropLast]⟩ : BufList).bytes).1,
        .error (.Incomplete f.encode.length)) := by
    rw [hbytes, ← htr]
  have hdec1 : FrameDecoder.decode ⟨none⟩ ⟨[f.encode.dropLast]⟩ =
      (⟨some f.encode.length⟩, ⟨[f.encode.dropLast]⟩, .ok none) :=
    FrameDecoder.decode_incomplete (by rw [hrem]; exact hne)
      (by intro k hk; simp at hk) hfull
  have hdec2 : FrameDecoder.decode ⟨some f.encode.length⟩
      ⟨[f.encode.dropLast]⟩ =
      (⟨some f.encode.length⟩, ⟨[f.encode.dropLast]⟩, .ok none) :=
    FrameDecoder.decode_hint_miss rfl (by rw [hrem]; exact hne)
      (by rw [hrem]; exact hlt)
  unfold FrameStream.poll_next
  rw [if_neg (by simp [FrameStream.new])]
  simp only [FrameStream.new, FrameDecoder.default]
  simp only [pollNextLoop, hbuf, hdec1]
  simp only [pollNextLoop, hdec2]
  rw [if_pos (by rw [hrem]; exact hne)]

theorem pollNextLoop_skip {c : List Nat} {rest : List RecvEvent}
    {bufs b' : BufList} {dec d' : FrameDecoder}
    (h : FrameDecoder.decode dec (bufs.push c) = (d', b', .ok none)) :
    pollNextLoop (RecvEvent.chunk c :: rest) bufs dec =
      pollNextLoop rest b' d' := by
  simp only [pollNextLoop, h]

theorem FrameStream.poll_next_yield_step {s : FrameStream} {c : List Nat}
    {rest : List RecvEvent} {pos : Nat} {f : Frame} {rd : Nat}
    (hz : s.remaining_data = 0) (hs : s.stream = RecvEvent.chunk c :: rest)
    (h0 : (s.bufs.push c).remaining ≠ 0)
    (hpk : ∀ k, s.decoder.expected = some k → k ≤ (s.bufs.push c).remaining)
    (hd : Frame.decode (s.bufs.push c).bytes = (pos, .ok f))
    (hrd : rd = match f with | Frame.Data len => len | _ => 0) :
    FrameStream.poll_next s =
      some (⟨rest, (s.bufs.push c).advance pos, ⟨none⟩, rd⟩,
        .ready (.ok (some f))) := by
  have hdec := FrameDecoder.decode_frame h0 hpk hd
  unfold FrameStream.poll_next
  rw [if_neg (by omega), hs]
  simp only [pollNextLoop, hdec]
  cases f with
  | Data len =>
    dsimp only at hrd
    subst hrd
    rfl
  | Headers block =>
    dsimp only at hrd
    subst hrd
    rw [hz]
  | Settings payload =>
    dsimp only at hrd
    subst hrd
    rw [hz]

theorem poll_next_skip_unknown (f1 f2 : Frame) (ty : Nat) (payload : List Nat)
    (hf1 : f1.wf) (hf2 : f2.wf) (hnd : ∀ len, f1 ≠ .Data len)
    (hty : ty < 2 ^ 62) (hpl : payload.length < 2 ^ 62)
    (h0 : ty ≠ 0) (h1 : ty ≠ 1) (h4 : ty ≠ 4) :
    ∃ s1 s2 : FrameStream,
      FrameStream.poll_next (FrameStream.new
          [RecvEvent.chunk f1.encode,
            RecvEvent.chunk (encodeUnknown ty payload),
            RecvEvent.chunk f2.encode]) = some (s1, .ready (.ok (some f1))) ∧
        FrameStream.poll_next s1 = some (s2, .ready (.ok (some f2))) := by
  have hnil1 := Frame.encode_ne_nil f1
  have hnil2 := Frame.encode_ne_nil f2
  have hnilU := encodeUnknown_ne_nil ty payload
  have hstep1 := @FrameStream.poll_next_yield_step
    (FrameStream.new
      [RecvEvent.chunk f1.encode,
        RecvEvent.chunk (encodeUnknown ty payload),
        RecvEvent.chunk f2.encode])
    f1.encode
    [RecvEvent.chunk (encodeUnknown ty payload),
      RecvEvent.chunk f2.encode]
    f1.encode.length f1 0
    rfl rfl
    (by
      show (BufList.push ⟨[]⟩ f1.encode).remaining ≠ 0
      rw [BufList.push_empty _ hnil1, BufList.remaining_single]
      have h2 := Frame.encode_length_two f1
      omega)
    (by intro k hk; simp [FrameStream.new, FrameDecoder.default] at hk)
    (by
      show Frame.decode (BufList.push ⟨[]⟩ f1.encode).bytes
        = (f1.encode.length, .ok f1)
      rw [BufList.push_empty _ hnil1, BufList.bytes_single]
      exact Frame.decode_encode_nil f1 hf1)
    (by
      cases f1 with
      | Data len => exact absurd rfl (hnd len)
      | Headers block => rfl
      | Settings payload => rfl)
  have hb1 : ((FrameStream.new
      [RecvEvent.chunk f1.encode,
        RecvEvent.chunk (encodeUnknown ty payload),
        RecvEvent.chunk f2.encode]).bufs.push f1.encode).advance
      f1.encode.length = (⟨[]⟩ : BufList) := by
    show (BufList.push ⟨[]⟩ f1.encode).advance f1.encode.length = _
    rw [BufList.push_empty _ hnil1, BufList.advance_single]
  rw [hb1] at hstep1
  obtain ⟨s2, hstep2⟩ : ∃ s2, FrameStream.poll_next
      ⟨[RecvEvent.chunk (encodeUnknown ty payload),
        RecvEvent.chunk f2.encode], ⟨[]⟩, ⟨none⟩, 0⟩ =
      some (s2, .ready (.ok (some f2))) := by
    have hdecU : FrameDecoder.decode ⟨none⟩
        (BufList.push ⟨[]⟩ (encodeUnknown ty payload)) =
        (⟨none⟩, (BufList.push ⟨[]⟩ (encodeUnknown ty payload)).advance
          (encodeUnknown ty payload).length, .ok none) :=
      FrameDecoder.decode_unknown
        (by
          rw [BufList.push_empty _ hnilU, BufList.remaining_single]
          exact encodeUnknown_length_pos ty payload)
        (by intro k hk; simp at hk)
        (by
          rw [BufList.push_empty _ hnilU, BufList.bytes_single]
          exact Frame.decode_encodeUnknown_nil ty payload hty hpl h0 h1 h4)
    unfold FrameStream.poll_next
    rw [if_neg (by simp)]
    dsimp only
    rw [pollNextLoop_skip hdecU]
    have hb2 : (BufList.push ⟨[]⟩ (encodeUnknown ty payload)).advance
        (encodeUnknown ty payload).length = (⟨[]⟩ : BufList) := by
      rw [BufList.push_empty _ hnilU, BufList.advance_single]
    rw [hb2]
    have hdecF2 : FrameDecoder.decode ⟨none⟩ (BufList.push ⟨[]⟩ f2.encode) =
        (⟨none⟩, (BufList.push ⟨[]⟩ f2.encode).advance f2.encode.length,
          .ok (some f2)) :=
      FrameDecoder.decode_frame
        (by
          rw [BufList.push_empty _ hnil2, BufList.remaining_single]
          have h2 := Frame.encode_length_two f2
          omega)
        (by intro k hk; simp at hk)
        (by
          rw [BufList.push_empty _ hnil2, BufList.bytes_single]
          exact Frame.decode_encode_nil f2 hf2)
    simp only [pollNextLoop, hdecF2]
    exact ⟨_, rfl⟩
  exact ⟨_, s2, hstep1, hstep2⟩

/-! ## Hint-equivalence helper lemmas -/

theorem decodeAttempt_proj_eq (dec : FrameDecoder) (src : BufList)
    (h0 : ¬ src.remaining = 0) :
    (FrameDecoder.decodeAttempt dec src).2 = decodeNoHint src := by
  unfold decodeNoHint FrameDecoder.decodeAttempt
  rw [if_neg h0]
  rcases hd : Frame.decode src.bytes with ⟨pos, res⟩
  cases res with
  | error e => cases e <;> rfl
  | ok f => rfl

theorem decodeAttempt_hintSound (dec : FrameDecoder) (src : BufList)
    (hs : HintSound dec src) :
    HintSound (FrameDecoder.decodeAttempt dec src).1
      (FrameDecoder.decodeAttempt dec src).2.1 := by
  unfold FrameDecoder.decodeAttempt
  rcases hd : Frame.decode src.bytes with ⟨pos, res⟩
  cases res with
  | error e =>
    cases e with
    | Settings reason => exact hs
    | UnsupportedFrame t => exact hs
    | UnknownFrame t =>
      intro m hm
      simp at hm
    | Incomplete m =>
      intro m' hm' hlt
      simp only [Option.some.injEq] at hm'
      subst hm'
      rw [hd]
    | Malformed => exact hs
  | ok f =>
    intro m hm
    simp at hm

theorem decode_eq_noHint {dec : FrameDecoder} {src : BufList}
    (hs : HintSound dec src) :
    (FrameDecoder.decode dec src).2 = decodeNoHint src := by
  unfold FrameDecoder.decode
  by_cases h0 : src.remaining = 0
  · rw [if_pos h0]
    unfold decodeNoHint
    rw [if_pos h0]
  · rw [if_neg h0]
    cases hd : dec.expected with
    | none => exact decodeAttempt_proj_eq dec src h0
    | some m =>
      dsimp only
      by_cases hlt : src.remaining < m
      · rw [if_pos hlt]
        have h := hs m hd hlt
        unfold decodeNoHint
        rw [if_neg h0,
          show Frame.decode src.bytes
            = ((Frame.decode src.bytes).1, .error (.Incomplete m)) from by
          rw [← h]]
      · rw [if_neg hlt]
        exact decodeAttempt_proj_eq dec src h0

theorem decode_hintSound {dec : FrameDecoder} {src : BufList}
    (hs : HintSound dec src) :
    HintSound (FrameDecoder.decode dec src).1
      (FrameDecoder.decode dec src).2.1 := by
  unfold FrameDecoder.decode
  by_cases h0 : src.remaining = 0
  · rw [if_pos h0]
    exact hs
  · rw [if_neg h0]
    cases hd : dec.expected with
    | none => exact decodeAttempt_hintSound dec src hs
    | some m =>
      dsimp only
      by_cases hlt : src.remaining < m
      · rw [if_pos hlt]
        exact hs
      · rw [if_neg hlt]
        exact decodeAttempt_hintSound dec src hs

theorem hintSound_push {dec : FrameDecoder} {src : BufList} {c : List Nat}
    (hs : HintSound dec src) : HintSound dec (src.push c) := by
  intro m hm hlt
  rw [BufList.remaining, BufList.push_bytes, List.length_append] at hlt
  have hlt0 : src.remaining < m := by
    rw [BufList.remaining]
    omega
  have h := hs m hm hlt0
  have hpair : Frame.decode src.bytes
      = ((Frame.decode src.bytes).1, .error (.Incomplete m)) := by
    rw [← h]
  rw [BufList.push_bytes]
  exact Frame.decode_incomplete_append hpair
    (by rw [List.length_append]; omega)

theorem hintSound_default (src : BufList) :
    HintSound FrameDecoder.default src := by
  intro m hm
  simp [FrameDecoder.default] at hm

/-! ## Claim theorems -/

/-- C1 (failing input): after `poll_next` yields a `Data` frame declaring
length 4 with no payload bytes buffered and the transport at clean
end-of-stream, `poll_data` returns `Ready(Ok(None))` — the "no more
payload" signal — with `remaining_data` still 4, instead of the
`UnexpectedEnd` error the claim requires for a transport that ended
after fewer than `L` payload bytes. -/
theorem c1_data_truncated_zero_bytes :
    FrameStream.poll_next (FrameStream.new
        [RecvEvent.chunk (Frame.encode (Frame.Data 4))]) =
      some (⟨[], ⟨[]⟩, ⟨none⟩, 4⟩, .ready (.ok (some (Frame.Data 4)))) ∧
      FrameStream.poll_data ⟨[], ⟨[]⟩, ⟨none⟩, 4⟩ =
        (⟨[], ⟨[]⟩, ⟨none⟩, 4⟩, .ready (.ok none)) :=
  ⟨rfl, rfl⟩

/-- C5: calling `poll_next` with `remaining_data ≠ 0` trips the entry
assertion (modelled as the `none` result), and in particular doing so
right after `poll_next` successfully yielded a length-announcing
`Data` frame with a nonzero declared length always panics. -/
theorem c5_poll_next_assert :
    (∀ s : FrameStream, s.remaining_data ≠ 0 →
      FrameStream.poll_next s = none) ∧
    (∀ (s s' : FrameStream) (len : Nat),
      FrameStream.poll_next s =
        some (s', .ready (.ok (some (Frame.Data len)))) →
      len ≠ 0 → FrameStream.poll_next s' = none) := by
  have hbase : ∀ s : FrameStream, s.remaining_data ≠ 0 →
      FrameStream.poll_next s = none := by
    intro s h
    unfold FrameStream.poll_next
    rw [if_pos h]
  refine ⟨hbase, ?_⟩
  intro s s' len h hlen
  obtain ⟨-, hrem⟩ := FrameStream.poll_next_remaining h
  exact hbase s' (by rw [hrem]; exact hlen)

/-- C5 witness: the `Data`-frame-then-`poll_next` scenario of the
source's own `poll_next_reamining_data` test. -/
theorem c5_poll_next_assert_witness :
    FrameStream.poll_next (⟨[], ⟨[]⟩, ⟨none⟩, 4⟩ : FrameStream) = none :=
  c5_poll_next_assert.2 (FrameStream.new
      [RecvEvent.chunk (Frame.encode (Frame.Data 4))])
    ⟨[], ⟨[]⟩, ⟨none⟩, 4⟩ 4 rfl (by decide)

/-- C7: when a parse attempt fails for insufficient bytes, the decoder
records the reported minimum in `expected`, returns no frame, and
commits nothing — the buffer is returned exactly as it was. -/
theorem c7_incomplete_records_min :
    ∀ (dec : FrameDecoder) (src : BufList) (p m : Nat),
      src.remaining ≠ 0 →
      (∀ k, dec.expected = some k → k ≤ src.remaining) →
      Frame.decode src.bytes = (p, .error (.Incomplete m)) →
      FrameDecoder.decode dec src = (⟨some m⟩, src, .ok none) :=
  fun _ _ _ _ h0 hp hd => FrameDecoder.decode_incomplete h0 hp hd

/-- C7 witness: a headers frame announcing 5 payload bytes with only one
present; the parse reports 7 bytes needed and the buffer is untouched. -/
theorem c7_incomplete_records_min_witness :
    FrameDecoder.decode ⟨none⟩ ⟨[[1, 5, 115]]⟩ =
      (⟨some 7⟩, ⟨[[1, 5, 115]]⟩, .ok none) :=
  c7_incomplete_records_min ⟨none⟩ ⟨[[1, 5, 115]]⟩ 2 7 (by decide)
    (by intro k hk; simp at hk) rfl

/-- C9: the error-to-protocol-code mapping of `Error::code`: transport
errors and `UnexpectedEnd` map to the general protocol error code,
settings decode errors to the settings error code, unsupported-frame
decode errors to the frame-unexpected code, and every other decode
error to the frame error code. -/
theorem c9_error_code_mapping :
    (∀ m, (Error.Quic m).code = ErrorCode.GENERAL_PROTOCOL_ERROR) ∧
    (∀ r, (Error.Proto (ProtoError.Settings r)).code
      = ErrorCode.SETTINGS_ERROR) ∧
    (∀ t, (Error.Proto (ProtoError.UnsupportedFrame t)).code
      = ErrorCode.FRAME_UNEXPECTED) ∧
    (∀ e : ProtoError, (∀ r, e ≠ ProtoError.Settings r) →
      (∀ t, e ≠ ProtoError.UnsupportedFrame t) →
      (Error.Proto e).code = ErrorCode.FRAME_ERROR) ∧
    Error.UnexpectedEnd.code = ErrorCode.GENERAL_PROTOCOL_ERROR := by
  refine ⟨fun m => rfl, fun r => rfl, fun t => rfl, ?_, rfl⟩
  intro e h1 h2
  cases e with
  | Settings r => exact absurd rfl (h1 r)
  | UnsupportedFrame t => exact absurd rfl (h2 t)
  | UnknownFrame t => rfl
  | Incomplete m => rfl
  | Malformed => rfl

/-- C9 witness: an `Incomplete` decode error maps to the frame error
code. -/
theorem c9_error_code_mapping_witness :
    (Error.Proto (ProtoError.Incomplete 5)).code = ErrorCode.FRAME_ERROR :=
  c9_error_code_mapping.2.2.2.1 (ProtoError.Incomplete 5)
    (fun _ h => ProtoError.noConfusion h) (fun _ h => ProtoError.noConfusion h)

/-- C10: `poll_data` with `remaining_data = 0` immediately returns the
"no more payload" signal with the state — transport events included —
completely unchanged; it neither suspends nor panics. -/
theorem c10_poll_data_zero :
    ∀ s : FrameStream, s.remaining_data = 0 →
      FrameStream.poll_data s = (s, .ready (.ok none)) := by
  intro s h
  unfold FrameStream.poll_data
  rw [if_pos h]

/-- C10 witness: a fresh stream with a pending transport event returns
"no more payload" without consuming the event. -/
theorem c10_poll_data_zero_witness :
    FrameStream.poll_data (FrameStream.new [RecvEvent.pending]) =
      (FrameStream.new [RecvEvent.pending], .ready (.ok none)) :=
  c10_poll_data_zero (FrameStream.new [RecvEvent.pending]) rfl

/-- C2: when the decoder produces no frame and the transport has
signaled clean end-of-stream, `poll_next` fails with `UnexpectedEnd` if
unconsumed bytes remain in the buffer and returns the graceful "no more
frames" result otherwise; in particular, any well-formed encoded frame
truncated by one trailing byte followed by clean end-of-stream makes
`poll_next` return `UnexpectedEnd`. -/
theorem c2_poll_next_unexpected_end :
    (∀ (s : FrameStream) (d' : FrameDecoder) (b' : BufList),
      s.remaining_data = 0 → s.stream = [] →
      FrameDecoder.decode s.decoder s.bufs = (d', b', .ok none) →
      FrameStream.poll_next s = some (⟨[], b', d', 0⟩,
        if b'.remaining ≠ 0 then .ready (.error Error.UnexpectedEnd)
        else .ready (.ok none))) ∧
    (∀ f : Frame, f.wf →
      ∃ s', FrameStream.poll_next
        (FrameStream.new [RecvEvent.chunk f.encode.dropLast]) =
          some (s', .ready (.error Error.UnexpectedEnd))) := by
  constructor
  · intro s d' b' hz hs hdec
    unfold FrameStream.poll_next
    rw [if_neg (by omega), hs]
    simp only [pollNextLoop, hdec]
    by_cases hb : b'.remaining ≠ 0
    · rw [if_pos hb, if_pos hb]
      simp [hz]
    · rw [if_neg hb, if_neg hb]
      simp [hz]
  · intro f hf
    exact ⟨_, poll_next_truncated_frame f hf⟩

/-- C2 witness: a headers frame truncated by its last byte yields
`UnexpectedEnd`, and the graceful-end side of the general statement at a
fresh exhausted stream. -/
theorem c2_poll_next_unexpected_end_witness :
    ∃ s', FrameStream.poll_next (FrameStream.new
        [RecvEvent.chunk (Frame.encode (Frame.Headers [104])).dropLast]) =
      some (s', .ready (.error Error.UnexpectedEnd)) :=
  c2_poll_next_unexpected_end.2 (Frame.Headers [104]) (by decide)

/-- C3 counterexample: known frame, unknown frame (type `0x21`), known
frame delivered in one chunk with the transport then at clean
end-of-stream.  The first `poll_next` yields the first headers frame,
but the second returns the `UnexpectedEnd` error — the second known
frame is not yielded, contradicting the claim that both known frames
are still yielded in order. -/
theorem c3_unknown_frame_counterexample :
    FrameStream.poll_next (FrameStream.new [RecvEvent.chunk
        (Frame.encode (Frame.Headers [104]) ++ encodeUnknown 33 [1, 2]
          ++ Frame.encode (Frame.Headers [116]))]) =
      some (⟨[], ⟨[encodeUnknown 33 [1, 2]
          ++ Frame.encode (Frame.Headers [116])]⟩, ⟨none⟩, 0⟩,
        .ready (.ok (some (Frame.Headers [104])))) ∧
      FrameStream.poll_next ⟨[], ⟨[encodeUnknown 33 [1, 2]
          ++ Frame.encode (Frame.Headers [116])]⟩, ⟨none⟩, 0⟩ =
        some (⟨[], ⟨[Frame.encode (Frame.Headers [116])]⟩, ⟨none⟩, 0⟩,
          .ready (.error Error.UnexpectedEnd)) :=
  ⟨rfl, rfl⟩

/-- C3 (amended): on an unknown frame type the decoder commits the
consumed bytes, clears the hint and returns no frame; and when each
frame arrives in its own chunk — so the transport has not yet signaled
end-of-stream when the unknown frame is skipped — the two known frames
are still yielded by `poll_next`, in order, with the unknown frame
silently skipped. -/
theorem c3_unknown_frame_skipped :
    (∀ (dec : FrameDecoder) (src : BufList) (pos ty : Nat),
      src.remaining ≠ 0 →
      (∀ k, dec.expected = some k → k ≤ src.remaining) →
      Frame.decode src.bytes = (pos, .error (.UnknownFrame ty)) →
      FrameDecoder.decode dec src = (⟨none⟩, src.advance pos, .ok none)) ∧
    (∀ (f1 f2 : Frame) (ty : Nat) (payload : List Nat),
      f1.wf → f2.wf → (∀ len, f1 ≠ .Data len) →
      ty < 2 ^ 62 → payload.length < 2 ^ 62 →
      ty ≠ 0 → ty ≠ 1 → ty ≠ 4 →
      ∃ s1 s2 : FrameStream,
        FrameStream.poll_next (FrameStream.new
            [RecvEvent.chunk f1.encode,
              RecvEvent.chunk (encodeUnknown ty payload),
              RecvEvent.chunk f2.encode]) =
          some (s1, .ready (.ok (some f1))) ∧
        FrameStream.poll_next s1 = some (s2, .ready (.ok (some f2)))) :=
  ⟨fun _ _ _ _ h0 hp hd => FrameDecoder.decode_unknown h0 hp hd,
    fun f1 f2 ty payload hf1 hf2 hnd hty hpl h0 h1 h4 =>
      poll_next_skip_unknown f1 f2 ty payload hf1 hf2 hnd hty hpl h0 h1 h4⟩

/-- C3 witness: both headers frames around an unknown frame of type
`0x21` are yielded when each arrives in its own chunk. -/
theorem c3_unknown_frame_skipped_witness :
    ∃ s1 s2 : FrameStream,
      FrameStream.poll_next (FrameStream.new
          [RecvEvent.chunk (Frame.encode (Frame.Headers [104])),
            RecvEvent.chunk (encodeUnknown 33 [1, 2]),
            RecvEvent.chunk (Frame.encode (Frame.Headers [116]))]) =
        some (s1, .ready (.ok (some (Frame.Headers [104])))) ∧
      FrameStream.poll_next s1 =
        some (s2, .ready (.ok (some (Frame.Headers [116])))) :=
  c3_unknown_frame_skipped.2 (Frame.Headers [104]) (Frame.Headers [116])
    33 [1, 2] (by decide) (by decide) (fun _ h => Frame.noConfusion h)
    (by decide) (by decide) (by decide) (by decide) (by decide)

/-- C6 (failing trace): the invariant fails on the program.  A `Data`
frame declares 4 payload bytes, of which 2 arrive in the header's chunk
and the rest in a second chunk that also carries the next headers
frame.  The extraction loop's `chunk_len = min(read_size,
chunk.remaining())` (line 88) takes 4 further bytes from the second
chunk, so the single `poll_data` call returns 6 bytes — more than the
declared 4, swallowing 2 bytes of the following frame — and the `u64`
subtraction at line 99 wraps `remaining_data` to `2 ^ 64 - 2`.  The
most recently yielded `Data` frame's payload is (over-)drained, yet
`remaining_data > 0`, violating the claimed "if and only if". -/
theorem c6_remaining_data_wraps :
    FrameStream.poll_next (FrameStream.new
        [RecvEvent.chunk (Frame.encode (Frame.Data 4) ++ [98, 111]),
          RecvEvent.chunk
            ([100, 121] ++ Frame.encode (Frame.Headers [116]))]) =
      some (⟨[RecvEvent.chunk
            ([100, 121] ++ Frame.encode (Frame.Headers [116]))],
          ⟨[[98, 111]]⟩, ⟨none⟩, 4⟩,
        .ready (.ok (some (Frame.Data 4)))) ∧
      FrameStream.poll_data
          ⟨[RecvEvent.chunk
              ([100, 121] ++ Frame.encode (Frame.Headers [116]))],
            ⟨[[98, 111]]⟩, ⟨none⟩, 4⟩ =
        (⟨[], ⟨[[116]]⟩, ⟨none⟩, 2 ^ 64 - 2⟩,
          .ready (.ok (some [98, 111, 100, 121, 1, 1]))) ∧
      (4 : Nat) < ([98, 111, 100, 121, 1, 1] : List Nat).length ∧
      (2 ^ 64 - 2 : Nat) ≠ 0 :=
  ⟨rfl, rfl, by decide, by decide⟩

/-- C8: the `expected` hint is purely an optimization: when set and the
buffer holds fewer bytes, `decode` returns no frame with nothing
changed; under the hint-soundness invariant — which holds initially and
is preserved by every decode and every chunk push — the decoder's
observable behaviour (buffer effect and result) is exactly that of the
hint-free decoder. -/
theorem c8_hint_equivalence :
    (∀ (dec : FrameDecoder) (src : BufList) (m : Nat),
      dec.expected = some m → src.remaining ≠ 0 → src.remaining < m →
      FrameDecoder.decode dec src = (dec, src, .ok none)) ∧
    (∀ (dec : FrameDecoder) (src : BufList), HintSound dec src →
      (FrameDecoder.decode dec src).2 = decodeNoHint src ∧
      HintSound (FrameDecoder.decode dec src).1
        (FrameDecoder.decode dec src).2.1) ∧
    (∀ (dec : FrameDecoder) (src : BufList) (c : List Nat),
      HintSound dec src → HintSound dec (src.push c)) ∧
    (∀ src : BufList, HintSound FrameDecoder.default src) :=
  ⟨fun _ _ _ he h0 hlt => FrameDecoder.decode_hint_miss he h0 hlt,
    fun _ _ hs => ⟨decode_eq_noHint hs, decode_hintSound hs⟩,
    fun _ _ _ hs => hintSound_push hs,
    hintSound_default⟩

/-- C8 witness: the fast path at a recorded minimum of 7 against a
3-byte buffer. -/
theorem c8_hint_equivalence_witness :
    FrameDecoder.decode ⟨some 7⟩ ⟨[[1, 5, 115]]⟩ =
      (⟨some 7⟩, ⟨[[1, 5, 115]]⟩, .ok none) :=
  c8_hint_equivalence.1 ⟨some 7⟩ ⟨[[1, 5, 115]]⟩ 7 rfl (by decide) (by decide)

/-- C4 counterexample, both halves of the claim failing for real.
First: after a `Data` frame whose 4 payload bytes are already buffered,
a `poll_data` call made while the transport's next poll reports
not-ready returns `Pending` — it suspends even though
`remaining_data > 0` and buffered bytes are available.  Second: with 2
payload bytes buffered and the remaining 2 arriving in a chunk that
also carries the next frame, the call returns 6 bytes, not
`min(remaining_data, available) = min 4 7 = 4` — the per-chunk loop at
mod.rs:88 over-extracts and the `u64` decrement at mod.rs:99 wraps. -/
theorem c4_poll_data_counterexample :
    FrameStream.poll_next (FrameStream.new
        [RecvEvent.chunk (Frame.encode (Frame.Data 4)
            ++ [98, 111, 100, 121]),
          RecvEvent.pending]) =
      some (⟨[RecvEvent.pending], ⟨[[98, 111, 100, 121]]⟩, ⟨none⟩, 4⟩,
        .ready (.ok (some (Frame.Data 4)))) ∧
      ((⟨[RecvEvent.pending], ⟨[[98, 111, 100, 121]]⟩, ⟨none⟩, 4⟩ :
          FrameStream).remaining_data ≠ 0 ∧
        (⟨[RecvEvent.pending], ⟨[[98, 111, 100, 121]]⟩, ⟨none⟩, 4⟩ :
          FrameStream).bufs.remaining ≠ 0) ∧
      FrameStream.poll_data
          ⟨[RecvEvent.pending], ⟨[[98, 111, 100, 121]]⟩, ⟨none⟩, 4⟩ =
        (⟨[], ⟨[[98, 111, 100, 121]]⟩, ⟨none⟩, 4⟩, .pending) ∧
      FrameStream.poll_data
          ⟨[RecvEvent.chunk [100, 121, 1, 1, 116]],
            ⟨[[98, 111]]⟩, ⟨none⟩, 4⟩ =
        (⟨[], ⟨[[116]]⟩, ⟨none⟩, 2 ^ 64 - 2⟩,
          .ready (.ok (some [98, 111, 100, 121, 1, 1]))) ∧
      ([98, 111, 100, 121, 1, 1] : List Nat).length ≠ min 4 7 :=
  ⟨rfl, ⟨by decide, by decide⟩, rfl, rfl, by decide⟩

/-- C4 (amended): `poll_data` polls the transport first and suspends
whenever that poll is pending, even with buffered payload bytes; when
the transport instead delivers a chunk, `remaining_data > 0`, at least
one byte is available, and the front contiguous chunk covers
`min(remaining_data, available)` bytes, the call extracts exactly that
many bytes, decrements `remaining_data` by the amount extracted, and
returns the bytes.  (When the read spans a chunk boundary the loop can
extract more — the mod.rs:88 bug recorded with C6.) -/
theorem c4_poll_data_extract :
    (∀ (s : FrameStream) (rest : List RecvEvent),
      s.remaining_data ≠ 0 → s.stream = RecvEvent.pending :: rest →
      FrameStream.poll_data s = ({ s with stream := rest }, .pending)) ∧
    (∀ (s : FrameStream) (c : List Nat) (rest : List RecvEvent),
      s.remaining_data ≠ 0 → s.remaining_data < 2 ^ 64 →
      s.stream = RecvEvent.chunk c :: rest →
      (s.bufs.push c).remaining ≠ 0 →
      min s.remaining_data (s.bufs.push c).remaining
        ≤ (s.bufs.push c).chunk.length →
      FrameStream.poll_data s =
        ({ s with
            stream := rest
            bufs := (s.bufs.push c).advance
              (min s.remaining_data (s.bufs.push c).remaining)
            remaining_data := s.remaining_data
              - min s.remaining_data (s.bufs.push c).remaining },
          .ready (.ok (some ((s.bufs.push c).bytes.take
            (min s.remaining_data (s.bufs.push c).remaining)))))) := by
  constructor
  · intro s rest hz hs
    unfold FrameStream.poll_data FrameStream.try_recv
    rw [if_neg hz, hs]
  · intro s c rest hz hw hs hb hcov
    obtain ⟨k, ks, hk⟩ : ∃ k ks, (s.bufs.push c).chunks = k :: ks := by
      cases hc : (s.bufs.push c).chunks with
      | nil =>
        exfalso
        apply hb
        rw [BufList.remaining, BufList.bytes, hc]
        rfl
      | cons a b => exact ⟨a, b, rfl⟩
    have hck : (s.bufs.push c).chunk = k := by
      unfold BufList.chunk
      rw [hk]
    rw [hck] at hcov
    have hrs0 : min s.remaining_data (s.bufs.push c).remaining ≠ 0 := by
      simp only [ne_eq, Nat.min_eq_zero_iff]
      push_neg
      exact ⟨hz, hb⟩
    have hrs_le : min s.remaining_data (s.bufs.push c).remaining
        ≤ s.remaining_data := Nat.min_le_left _ _
    have hdl : (k.take
        (min s.remaining_data (s.bufs.push c).remaining)).length
        = min s.remaining_data (s.bufs.push c).remaining := by
      rw [List.length_take]
      omega
    have hbytes : (s.bufs.push c).bytes.take
        (min s.remaining_data (s.bufs.push c).remaining)
        = k.take (min s.remaining_data (s.bufs.push c).remaining) := by
      rw [BufList.bytes, hk, List.flatten_cons,
        List.take_append_of_le_length hcov]
    have hadv : (s.bufs.push c).advance
        (min s.remaining_data (s.bufs.push c).remaining)
        = ⟨chunksAdvance (k :: ks)
            (min s.remaining_data (s.bufs.push c).remaining)⟩ := by
      unfold BufList.advance
      rw [hk]
    have harith : (s.remaining_data + 2 ^ 64
          - min s.remaining_data (s.bufs.push c).remaining % 2 ^ 64)
          % 2 ^ 64
        = s.remaining_data
          - min s.remaining_data (s.bufs.push c).remaining := by
      have hp : (0 : Nat) < 2 ^ 64 := by positivity
      rw [Nat.mod_eq_of_lt (by omega : min s.remaining_data
        (s.bufs.push c).remaining < 2 ^ 64)]
      rw [show s.remaining_data + 2 ^ 64
          - min s.remaining_data (s.bufs.push c).remaining
          = (s.remaining_data
            - min s.remaining_data (s.bufs.push c).remaining)
            + 1 * 2 ^ 64 from by omega]
      rw [Nat.add_mul_mod_self_right]
      exact Nat.mod_eq_of_lt (by omega)
    have hloop : extractLoop
        (min s.remaining_data (s.bufs.push c).remaining) (k :: ks) []
        = (k.take (min s.remaining_data (s.bufs.push c).remaining),
          chunksAdvance (k :: ks)
            (min s.remaining_data (s.bufs.push c).remaining)) := by
      simp only [extractLoop]
      rw [if_pos (by simp only [List.length_nil]; omega), if_pos hcov,
        List.nil_append]
    rw [hbytes, hadv]
    unfold FrameStream.poll_data FrameStream.try_recv
    rw [if_neg hz, hs]
    dsimp only
    rw [hk, hloop]
    dsimp only
    rw [if_neg (by rw [hdl]; exact hrs0), if_neg (by simp), hdl, harith]
/-- C4 witness: with 4 payload bytes outstanding and a 2-byte chunk
delivered by the transport, `poll_data` returns both bytes and leaves
`remaining_data` at 2. -/
theorem c4_poll_data_extract_witness :
    FrameStream.poll_data
        ⟨[RecvEvent.chunk [98, 111]], ⟨[]⟩, ⟨none⟩, 4⟩ =
      (⟨[], ⟨[]⟩, ⟨none⟩, 2⟩, .ready (.ok (some [98, 111]))) :=
  c4_poll_data_extract.2 ⟨[RecvEvent.chunk [98, 111]], ⟨[]⟩, ⟨none⟩, 4⟩
    [98, 111] [] (by decide) (by decide) rfl (by decide) (by decide)
